import Mathlib

/-!
Verification of the context-agent application (multi-agent pipeline with a
caching layer).  The development shallowly embeds the Python source:

* `PyVal` models the JSON-like Python values that flow through session state
  and the cache (floats are omitted: none of the verified properties depend
  on them).  Python dicts are modelled as insertion-ordered association
  lists, matching CPython dict semantics.
* `CacheStats`, `InMemoryCache`, `CacheManager.clear_all` and
  `generate_cache_key` embed `cache.py`.  For `InMemoryCache` the
  `CACHETOOLS_AVAILABLE = False` branch is embedded: that is the code in
  this repository (the `cachetools` branch delegates storage to an external
  library), and it is the variant whose FIFO eviction and lazy expiry the
  specification describes.  Timestamps are natural numbers.
* `extract_json_from_response` / `parse_json_safely` embed `utils.py`; the
  regular-expression searches are implemented with their leftmost,
  non-greedy backtracking semantics.  `json.loads` (Python stdlib) is a
  parameter `loads : String → Option PyVal`, `Option.none` standing for a
  raised `json.JSONDecodeError` (the only exception it raises on string
  input).
* `fetchRun` embeds `FetchAgent._run_async_impl`; exceptions are explicit
  `Except` errors, external capability calls (the web-fetch tool, the
  cache backend viewed through its never-raising `get`) are parameters in
  `FetchEnv`.
* `kgBuildGraph` embeds the store step of `KnowledgeDBAgent._run_async_impl`
  (lines 172-189: the `isinstance(relationships, list)` check and the
  construction of the stored `knowledge_graph` value).
* `process_query_from_web_gui` embeds the pipeline entry point of
  `agent.py`, with the ADK runner as a parameter in `GuiEnv`.
-/

/-- JSON-like Python value: `None`, `bool`, `int`, `str`, `list`, `dict`
(insertion-ordered, string keys, as used throughout the source). -/
inductive PyVal where
  | none
  | bool (b : Bool)
  | int (n : Int)
  | str (s : String)
  | list (xs : List PyVal)
  | dict (xs : List (String × PyVal))

/-- Python truthiness (`bool(v)`). -/
def PyVal.truthy : PyVal → Bool
  | .none => false
  | .bool b => b
  | .int n => n != 0
  | .str s => s != ""
  | .list xs => !xs.isEmpty
  | .dict xs => !xs.isEmpty

/-- Python `isinstance(v, list)`. -/
def PyVal.isList : PyVal → Bool
  | .list _ => true
  | _ => false

/-- Python `isinstance(v, dict)`. -/
def PyVal.isDict : PyVal → Bool
  | .dict _ => true
  | _ => false

/-- Lookup in an insertion-ordered dict (`d.get(k)` giving `None` as
`Option.none`). -/
def dictGet {α : Type} : List (String × α) → String → Option α
  | [], _ => Option.none
  | p :: rest, k => if p.1 = k then some p.2 else dictGet rest k

/-- Python `d.get(k, default)`. -/
def dictGetD {α : Type} (d : List (String × α)) (k : String) (v₀ : α) : α :=
  (dictGet d k).getD v₀

/-- Python `k in d`. -/
def dictMem {α : Type} (d : List (String × α)) (k : String) : Bool :=
  d.any (fun p => p.1 == k)

/-- Python `d[k] = v`: update in place if the key exists (keeping its
position), otherwise append. -/
def dictSet {α : Type} : List (String × α) → String → α → List (String × α)
  | [], k, v => [(k, v)]
  | (k', v') :: rest, k, v =>
    if k' = k then (k', v) :: rest else (k', v') :: dictSet rest k v

/-- Python `del d[k]` (no-op when the key is absent; on the reachable states
of the cache the key sets of `cache` and `expiry` coincide, so the
`KeyError` branch never fires). -/
def dictDel {α : Type} (d : List (String × α)) (k : String) : List (String × α) :=
  d.filter (fun p => p.1 != k)

/-- Counters of `CacheStats` in `cache.py`. -/
structure CacheStats where
  hits : Nat
  misses : Nat
  sets : Nat
  errors : Nat

/-- A freshly constructed `CacheStats()`. -/
def CacheStats.init : CacheStats := ⟨0, 0, 0, 0⟩

/-- The source's `record_hit`. -/
def CacheStats.record_hit (s : CacheStats) : CacheStats := { s with hits := s.hits + 1 }

/-- The source's `record_miss`. -/
def CacheStats.record_miss (s : CacheStats) : CacheStats := { s with misses := s.misses + 1 }

/-- The source's `record_set`. -/
def CacheStats.record_set (s : CacheStats) : CacheStats := { s with sets := s.sets + 1 }

/-- The source's `record_error`. -/
def CacheStats.record_error (s : CacheStats) : CacheStats := { s with errors := s.errors + 1 }

/-- The `hit_rate` property: `hits / total` when `total > 0`, else `0.0`.
Python float division is modelled as exact rational division. -/
def CacheStats.hit_rate (s : CacheStats) : ℚ :=
  let total := s.hits + s.misses
  if total > 0 then (s.hits : ℚ) / (total : ℚ) else 0

/-- Apply a stats-recording operation `n` times. -/
def recordN (f : CacheStats → CacheStats) : Nat → CacheStats → CacheStats
  | 0, s => s
  | n + 1, s => f (recordN f n s)

/-- State of `InMemoryCache` (the basic-dict branch of `cache.py`):
`_cache` and `_expiry` are insertion-ordered dicts, timestamps are `Nat`. -/
structure InMemoryCache where
  ttl : Nat
  max_size : Nat
  cache : List (String × PyVal)
  expiry : List (String × Nat)
  stats : CacheStats

/-- `InMemoryCache(ttl=…, max_size=…)`. -/
def InMemoryCache.init (ttl max_size : Nat) : InMemoryCache :=
  ⟨ttl, max_size, [], [], CacheStats.init⟩

/-- The effective TTL of a `set` call: Python `ttl or self.ttl` (a passed
`ttl` of `0` is falsy and falls back to the store-level TTL). -/
def effectiveTtl (c : InMemoryCache) (ttlArg : Option Nat) : Nat :=
  match ttlArg with
  | some t => if t = 0 then c.ttl else t
  | none => c.ttl

/-- `InMemoryCache.get(key)` at the current time `now`: lazily expire when
`now > expires_at`, then return `self._cache.get(key)`; record a hit when
the returned value `is not None`, else a miss.  Returns the Python return
value (`PyVal.none` meaning Python `None`) and the updated store. -/
def InMemoryCache.get (c : InMemoryCache) (key : String) (now : Nat) :
    PyVal × InMemoryCache :=
  let step : PyVal × InMemoryCache :=
    match dictGet c.expiry key with
    | some t =>
      if now > t then
        (.none, { c with cache := dictDel c.cache key, expiry := dictDel c.expiry key })
      else ((dictGet c.cache key).getD .none, c)
    | Option.none => ((dictGet c.cache key).getD .none, c)
  match step with
  | (.none, c') => (.none, { c' with stats := c'.stats.record_miss })
  | (v, c') => (v, { c' with stats := c'.stats.record_hit })

/-- `InMemoryCache.set(key, value, ttl)` at time `now`: store the value and
its expiry, then if `len(self._cache) > self.max_size` evict the single
oldest-inserted entry (`next(iter(self._cache))`).  Returns `True` and the
updated store (in the embedded domain the `except` branch is unreachable,
so `set` always succeeds). -/
def InMemoryCache.set (c : InMemoryCache) (key : String) (value : PyVal)
    (ttlArg : Option Nat) (now : Nat) : Bool × InMemoryCache :=
  let cache1 := dictSet c.cache key value
  let expiry1 := dictSet c.expiry key (now + effectiveTtl c ttlArg)
  if cache1.length > c.max_size then
    match cache1 with
    | [] => (true, { c with cache := [], expiry := expiry1, stats := c.stats.record_set })
    | (k0, _) :: _ =>
      (true, { c with
        cache := dictDel cache1 k0
        expiry := dictDel expiry1 k0
        stats := c.stats.record_set })
  else
    (true, { c with cache := cache1, expiry := expiry1, stats := c.stats.record_set })

/-- Insert a sequence of key/value pairs with `set` (no intervening `get`s),
all at time `now` with the per-call TTL omitted. -/
def insertAll (c : InMemoryCache) (kvs : List (String × PyVal)) (now : Nat) :
    InMemoryCache :=
  kvs.foldl (fun c kv => (c.set kv.1 kv.2 Option.none now).2) c

/-- `CacheManager.clear_all`: `success = True; for cache in
self.caches.values(): success = success and cache.clear(); return success`.
Each registered store is reduced to the `Bool` its `clear()` would return
if invoked (both backends catch internally and return a `bool`).  The
result is the returned `success` flag paired with the number of `clear()`
calls actually made: Python's short-circuiting `and` does not evaluate
`cache.clear()` once `success` is `False`. -/
def clear_all (clearResults : List Bool) : Bool × Nat :=
  clearResults.foldl
    (fun acc r => if acc.1 then (r, acc.2 + 1) else (acc.1, acc.2))
    (true, 0)

/-- Primitive test of `generate_cache_key`: `isinstance(arg, (str, int,
float, bool))` (floats are outside the embedded value domain). -/
def pyIsPrimitive : PyVal → Bool
  | .str _ => true
  | .int _ => true
  | .bool _ => true
  | _ => false

/-- Python `str(v)` on the primitive values rendered literally by
`generate_cache_key`. -/
def pyStrOfPrim : PyVal → String
  | .str s => s
  | .int n => toString n
  | .bool true => "True"
  | .bool false => "False"
  | _ => ""

/-- One rendered key part: primitives are rendered with `str`, any other
value goes through `objHash`, a parameter standing for the source's
`hashlib.md5(json.dumps(arg, sort_keys=True).encode()).hexdigest()` (a
pure, deterministic function of the argument). -/
def renderArg (objHash : PyVal → String) (v : PyVal) : String :=
  if pyIsPrimitive v then pyStrOfPrim v else objHash v

/-- Ordering used by `sorted(kwargs.items())`: compare the keyword names.
Since `**kwargs` is a Python dict its keys are distinct, so the tuple
comparison never reaches the values. -/
def kwLe (a b : String × PyVal) : Prop := a.1 ≤ b.1

/-- Strict version of `kwLe`, used to identify the sorted lists. -/
def kwLt (a b : String × PyVal) : Prop := a.1 < b.1

instance : DecidableRel kwLe := fun a b => inferInstanceAs (Decidable (a.1 ≤ b.1))

instance : IsTotal (String × PyVal) kwLe := ⟨fun a b => le_total a.1 b.1⟩

instance : IsTrans (String × PyVal) kwLe := ⟨fun _ _ _ h1 h2 => le_trans h1 h2⟩

instance : IsAntisymm (String × PyVal) kwLt :=
  ⟨fun _ _ h1 h2 => absurd h1 (lt_asymm h2)⟩

/-- The source's `sorted(kwargs.items())`. -/
def sortKwargs (kwargs : List (String × PyVal)) : List (String × PyVal) :=
  List.insertionSort kwLe kwargs

/-- `generate_cache_key(prefix, *args, **kwargs)` from `cache.py`:
the prefix, the rendered positional arguments, and the keyword arguments
sorted by name and rendered as `name=value`, joined by `":"`. -/
def generate_cache_key (objHash : PyVal → String) (pre : String)
    (args : List PyVal) (kwargs : List (String × PyVal)) : String :=
  let key_parts :=
    [pre] ++ args.map (renderArg objHash)
      ++ (sortKwargs kwargs).map (fun p => p.1 ++ "=" ++ renderArg objHash p.2)
  String.intercalate ":" key_parts

/-- Python exceptions relevant to the embedded code, tagged by type. -/
inductive PyExn where
  | typeError (msg : String)
  | attributeError (msg : String)
  | valueError (msg : String)
  | keyError (msg : String)

/-- Human-readable text of an exception (`str(e)`). -/
def PyExn.msg : PyExn → String
  | .typeError m => m
  | .attributeError m => m
  | .valueError m => m
  | .keyError m => m

/-- Characters matched by the regex class `\s` (and stripped by
`str.strip()`) in the ASCII range. -/
def isPySpace (c : Char) : Bool :=
  c = ' ' || c = '\t' || c = '\n' || c = '\r' || c = '\x0b' || c = '\x0c'

/-- Python `s.strip()`. -/
def pyStrip (s : String) : String :=
  String.mk (((s.data.dropWhile isPySpace).reverse.dropWhile isPySpace).reverse)

/-- Consume an exact literal character sequence, returning the rest. -/
def dropLit : List Char → List Char → Option (List Char)
  | [], cs => some cs
  | _ :: _, [] => Option.none
  | p :: ps, c :: cs => if c = p then dropLit ps cs else Option.none

/-- The three-backtick code-fence delimiter. -/
def fenceChars : List Char := ['\x60', '\x60', '\x60']

/-- Whether `\s*` followed by a closing fence starts here. -/
def fenceFollows (cs : List Char) : Bool :=
  (dropLit fenceChars (cs.dropWhile isPySpace)).isSome

/-- Scan for the first `closeC` (the non-greedy `.*?\}` with `re.DOTALL`:
any characters, newlines included, up to and including the first close
delimiter), keeping the consumed characters. -/
def takeUpTo (closeC : Char) : List Char → Option (List Char)
  | [] => Option.none
  | c :: cs => if c = closeC then some [c] else (takeUpTo closeC cs).map (c :: ·)

/-- Non-greedy scan for the first `closeC` that is followed by
`\s*` and a closing fence (backtracking semantics of `(\{.*?\})\s*` +
fence: earlier close delimiters not followed by a fence are swallowed by
`.*?`). -/
def scanClose (closeC : Char) : List Char → Option (List Char)
  | [] => Option.none
  | c :: cs =>
    if c = closeC && fenceFollows cs then some [c]
    else (scanClose closeC cs).map (c :: ·)

/-- Match the captured group of the fenced pattern right after
the opening fence, the optional `json` tag and `\s*`: an `openC`,
a minimal body, and a `closeC` followed by `\s*` and a closing fence. -/
def fencedBodyAt (openC closeC : Char) : List Char → Option (List Char)
  | [] => Option.none
  | c :: cs => if c = openC then (scanClose closeC cs).map (c :: ·) else Option.none

/-- Try the fenced pattern anchored at the current position:
an opening fence, an optional literal `json`, `\s*`, then the delimited
body.  (When the optional `json` tag is present but the rest fails, the
regex retry with the tag unmatched also fails, because the next required
character would be the `j` of `json`, which is neither whitespace nor the
open delimiter.) -/
def tryFencedAt (openC closeC : Char) (cs : List Char) : Option (List Char) :=
  match dropLit fenceChars cs with
  | Option.none => Option.none
  | some r1 =>
    let r2 := match dropLit ['j', 's', 'o', 'n'] r1 with
      | some x => x
      | Option.none => r1
    fencedBodyAt openC closeC (r2.dropWhile isPySpace)

/-- Leftmost search (`re.search`) for the fenced pattern. -/
def searchFenced (openC closeC : Char) : List Char → Option (List Char)
  | [] => Option.none
  | c :: cs =>
    match tryFencedAt openC closeC (c :: cs) with
    | some r => some r
    | Option.none => searchFenced openC closeC cs

/-- Leftmost search for the bare pattern `\{.*?\}` (or `\[.*?\]`) with
`re.DOTALL`: the first open delimiter that has a close delimiter after it,
up to the first such close delimiter. -/
def searchBare (openC closeC : Char) : List Char → Option (List Char)
  | [] => Option.none
  | c :: cs =>
    if c = openC then
      match takeUpTo closeC cs with
      | some body => some (c :: body)
      | Option.none => searchBare openC closeC cs
    else searchBare openC closeC cs

/-- `extract_json_from_response` from `utils.py`: fenced object, fenced
array, bare object, bare array — otherwise raise `ValueError`. -/
def extract_json_from_response (text : String) : Except PyExn String :=
  let cs := text.data
  match searchFenced '\x7b' '\x7d' cs with
  | some m => .ok (String.mk m)
  | Option.none =>
    match searchFenced '[' ']' cs with
    | some m => .ok (String.mk m)
    | Option.none =>
      match searchBare '\x7b' '\x7d' cs with
      | some m => .ok (String.mk m)
      | Option.none =>
        match searchBare '[' ']' cs with
        | some m => .ok (String.mk m)
        | Option.none =>
          .error (.valueError ("No JSON found in response: " ++ (text.take 200) ++ "..."))

/-- `parse_json_safely(text, default)` from `utils.py`: extract, then
`json.loads` (the parameter `loads`; `Option.none` models a raised
`json.JSONDecodeError`).  Both `ValueError` from extraction and
`JSONDecodeError` from parsing are caught and the default is returned. -/
def parse_json_safely (loads : String → Option PyVal) (text : String)
    (default : PyVal) : PyVal :=
  match extract_json_from_response text with
  | .error _ => default
  | .ok cleaned =>
    match loads cleaned with
    | some v => v
    | Option.none => default

/-- Session state: the ADK session's `state` mapping. -/
abbrev SessionState := List (String × PyVal)

/-- One ADK event as the stages produce it (author plus text part). -/
structure AgentEvent where
  author : String
  text : String

/-- Python `v.get(k, default)` on an arbitrary value: only dicts have a
`get` attribute; anything else raises `AttributeError`. -/
def pyAttrGet (v : PyVal) (k : String) (d : PyVal) : Except PyExn PyVal :=
  match v with
  | .dict xs => .ok (dictGetD xs k d)
  | _ => .error (.attributeError "get")

/-- Python `len(v)`: defined for strings, lists and dicts, `TypeError`
otherwise. -/
def pyLen (v : PyVal) : Except PyExn Nat :=
  match v with
  | .str s => .ok s.length
  | .list xs => .ok xs.length
  | .dict xs => .ok xs.length
  | _ => .error (.typeError "object has no len")

/-- Python iteration (`for x in v`): lists yield their elements, strings
their characters, dicts their keys; other values raise `TypeError`. -/
def pyIterate (v : PyVal) : Except PyExn (List PyVal) :=
  match v with
  | .list xs => .ok xs
  | .str s => .ok (s.data.map (fun c => .str (String.mk [c])))
  | .dict xs => .ok (xs.map (fun p => PyVal.str p.1))
  | _ => .error (.typeError "object is not iterable")

/-- Python `", ".join`-style element check: every element must be a `str`,
otherwise `TypeError`.  Returns the underlying strings. -/
def pyStrElems (xs : List PyVal) : Except PyExn (List String) :=
  xs.mapM (fun v =>
    match v with
    | .str s => Except.ok s
    | _ => Except.error (PyExn.typeError "sequence item: expected str instance"))

/-- `extract_entity_names` from `utils.py`: unwrap a dict's `entities` key,
then from a list collect `entity["name"]` for dicts carrying a `name` key
and string entries as they are; anything else (including a non-list) gives
no names.  The collected names are arbitrary Python values — the source
appends `entity["name"]` unchecked. -/
def extract_entity_names (entities : PyVal) : List PyVal :=
  let entities1 := match entities with
    | .dict d => dictGetD d "entities" (.list [])
    | v => v
  match entities1 with
  | .list xs =>
    xs.foldl (fun acc e =>
      match e with
      | .dict d => if dictMem d "name" then acc ++ [dictGetD d "name" .none] else acc
      | .str s => acc ++ [PyVal.str s]
      | _ => acc) []
  | _ => []

/-- External collaborators of `FetchAgent._run_async_impl` and the process
configuration it reads.  `cacheGet` is `self._web_cache.get` (both cache
backends catch internally and return a value, so it is total); `webFetch`
is `web_fetch_tool.fetch_multiple_entities` and `formatCtx` is
`web_fetch_tool.format_context_for_llm`, either of which may raise.
`objHash` is the md5 hash used by `generate_cache_key`. -/
structure FetchEnv where
  cache_enabled : Bool
  objHash : PyVal → String
  cacheGet : String → PyVal
  webFetch : List String → Except PyExn PyVal
  formatCtx : PyVal → Except PyExn String

/-- The cache-lookup loop of the fetch stage: per entity name, derive the
key, consult the cache when enabled, and partition into cached context
entries, hit count and miss count. -/
def fetchCacheScan (env : FetchEnv) (nameStrs : List String) :
    List PyVal × Nat × Nat :=
  nameStrs.foldl (fun acc n =>
    let key := generate_cache_key env.objHash "web_fetch" [PyVal.str n] []
    let cached := if env.cache_enabled then env.cacheGet key else .none
    if cached.truthy then (acc.1 ++ [cached], acc.2.1 + 1, acc.2.2)
    else (acc.1, acc.2.1, acc.2.2 + 1)) ([], 0, 0)

/-- The fetch-missing-entities step (source lines 111-134): when there were
cache misses, compute the entities still missing from `context_data`
(`item.get("entity") == name`, with `any` evaluated lazily), call the web
fetch tool, iterate the fetched data for caching (the cache writes
themselves have no observable effect on the verified properties), and
extend `context_data`. -/
def fetchMissing (env : FetchEnv) (nameStrs : List String)
    (context_data : List PyVal) (misses : Nat) : Except PyExn (List PyVal) := do
  if misses > 0 then
    let entities_to_fetch ← nameStrs.filterM (fun n => do
      let hit ← context_data.anyM (fun item => do
        let v ← pyAttrGet item "entity" .none
        pure (match v with
          | .str s => s == n
          | _ => false))
      pure (!hit))
    let fetched ← env.webFetch entities_to_fetch
    if env.cache_enabled then
      let items ← pyIterate fetched
      items.forM (fun item => do
        let _ ← pyAttrGet item "entity" .none
        pure ())
    let items2 ← pyIterate fetched
    return context_data ++ items2
  else
    return context_data

/-- The tail of the fetch stage's `try` block (source lines 140-179): format
the context for display, count sources and news items, and build the
success event. -/
def fetchSummary (env : FetchEnv) (context_data : List PyVal)
    (nameCount hits : Nat) : Except PyExn AgentEvent := do
  let formatted ← env.formatCtx (.list context_data)
  let counts ← context_data.foldlM (fun (acc : Nat × Nat) item => do
    let w ← pyAttrGet item "wikipedia" .none
    let acc1 : Nat × Nat := if w.truthy then (acc.1 + 1, acc.2) else acc
    let dk ← pyAttrGet item "duckduckgo" .none
    let acc2 : Nat × Nat := if dk.truthy then (acc1.1 + 1, acc1.2) else acc1
    let news ← pyAttrGet item "news" (.list [])
    let n ← pyLen news
    pure (acc2.1, acc2.2 + n)) ((0, 0) : Nat × Nat)
  let cache_info := if hits > 0 then " (💾 " ++ toString hits ++ " cached)" else ""
  let summary :=
    "✅ Successfully fetched context for " ++ toString nameCount ++ " entities"
      ++ cache_info ++ ":\n- " ++ toString counts.1
      ++ " encyclopedia/reference sources\n- " ++ toString counts.2
      ++ " recent news articles\n\n" ++ formatted ++ "\n"
  return ⟨"FetchAgent", summary⟩

/-- The fetch stage's `try` block (source lines 92-179).  Returns the
session state as of the failure point together with the raised exception,
or the final state and the success event.  The only state write inside the
block is `fetched_context` (line 137), performed after the fetch step and
before formatting. -/
def fetchTryBody (env : FetchEnv) (state : SessionState)
    (nameStrs : List String) :
    SessionState × Except PyExn (SessionState × AgentEvent) :=
  let scan := fetchCacheScan env nameStrs
  match fetchMissing env nameStrs scan.1 scan.2.2 with
  | .error e => (state, .error e)
  | .ok context_data =>
    let st1 := dictSet state "fetched_context" (.list context_data)
    match fetchSummary env context_data nameStrs.length scan.2.1 with
    | .error e => (st1, .error e)
    | .ok ev => (st1, .ok (st1, ev))

/-- `FetchAgent._run_async_impl`: read the entities from session state,
fall back with a warning event when there are none or no names can be
extracted, announce the fetch (this is where `", ".join(entity_names)` is
evaluated, outside any `try`), then run the `try` block, whose failures
are turned into the empty-context fallback plus a diagnostic event.
`Except.error` in the result is an exception propagating out of the
stage to the pipeline runner. -/
def fetchRun (env : FetchEnv) (state : SessionState) :
    Except PyExn (SessionState × List AgentEvent) := do
  let entities_data := dictGetD state "entities" (.dict [])
  let entities : PyVal :=
    match entities_data with
    | .dict d => dictGetD d "entities" (.list [])
    | .list xs => .list xs
    | _ => .list []
  if !entities.truthy then
    let st1 := dictSet state "fetched_context" (.list [])
    return (st1, [⟨"FetchAgent",
      "⚠️ No entities found to fetch context for. EntityAgent may not have run yet."⟩])
  let entity_names := extract_entity_names entities
  if entity_names.isEmpty then
    let st1 := dictSet state "fetched_context" (.list [])
    return (st1, [⟨"FetchAgent", "⚠️ No valid entity names extracted."⟩])
  let nameStrs ← pyStrElems entity_names
  let announce : AgentEvent := ⟨"FetchAgent",
    "🔍 Fetching real-time context and news for: "
      ++ String.intercalate ", " nameStrs ++ "..."⟩
  match fetchTryBody env state nameStrs with
  | (_, .ok (st2, ev)) => return (st2, [announce, ev])
  | (stPartial, .error e) =>
    let st2 := dictSet stPartial "fetched_context" (.list [])
    return (st2, [announce, ⟨"FetchAgent", "❌ Error fetching context: " ++ e.msg⟩])

/-- The store step of `KnowledgeDBAgent._run_async_impl` (lines 172-189):
given the enriched nodes and the value `parse_json_safely` produced from
the model's relationship proposal, replace a non-list by `[]` and store
`{"nodes": nodes, "relationships": relationships}` — the relationships are
stored exactly as proposed, with no reference check against the nodes. -/
def kgBuildGraph (nodes : List PyVal) (parsedRels : PyVal) : PyVal :=
  let relationships := if parsedRels.isList then parsedRels else .list []
  .dict [("nodes", .list nodes), ("relationships", relationships)]

/-- The specification's knowledge-graph invariant: every relationship's
`from_node` and `to_node` reference a `name` present in `nodes`. -/
def graphRelClosed (g : PyVal) : Bool :=
  match g with
  | .dict fields =>
    match dictGetD fields "nodes" (.list []), dictGetD fields "relationships" (.list []) with
    | .list nodes, .list rels =>
      let names := nodes.filterMap (fun n =>
        match n with
        | .dict d =>
          match dictGet d "name" with
          | some (.str s) => some s
          | _ => Option.none
        | _ => Option.none)
      rels.all (fun r =>
        match r with
        | .dict d =>
          (match dictGet d "from_node" with
            | some (.str s) => names.contains s
            | _ => false)
          && (match dictGet d "to_node" with
            | some (.str s) => names.contains s
            | _ => false)
        | _ => false)
    | _, _ => false
  | _ => false

/-- Lazy `any(s.strip() for s in xs)`: stops at the first non-blank string;
a non-string element reached during the scan raises `AttributeError`
(`strip` is a `str` method). -/
def anyNonBlank : List PyVal → Except PyExn Bool
  | [] => .ok false
  | .str s :: rest =>
    if pyStrip s ≠ "" then .ok true else anyNonBlank rest
  | _ :: _ => .error (.attributeError "strip")

/-- `set_user_query` from `agent.py`: join the statements with newlines and
strip, store under `user_query`, and append a `user_query` action to the
`interaction_history` list (`session.state[...]` raises `KeyError` when
the key is absent, `.append` raises `AttributeError` on a non-list). -/
def set_user_query (state : SessionState) (statements : List String) :
    Except PyExn SessionState := do
  let joined := pyStrip (String.intercalate "\n" statements)
  let st1 := dictSet state "user_query" (.str joined)
  let hist ← match dictGet st1 "interaction_history" with
    | some v => Except.ok v
    | Option.none => Except.error (PyExn.keyError "interaction_history")
  match hist with
  | .list hs =>
    return dictSet st1 "interaction_history"
      (.list (hs ++ [.dict [("action", .str "user_query"),
        ("statements", .list (statements.map PyVal.str))]]))
  | _ => Except.error (PyExn.attributeError "append")

/-- `add_agent_response` from `agent.py`: append an `agent_response` entry
to the `interaction_history` list. -/
def add_agent_response (state : SessionState) (agent_name response_text : String) :
    Except PyExn SessionState := do
  let hist ← match dictGet state "interaction_history" with
    | some v => Except.ok v
    | Option.none => Except.error (PyExn.keyError "interaction_history")
  match hist with
  | .list hs =>
    return dictSet state "interaction_history"
      (.list (hs ++ [.dict [("action", .str "agent_response"),
        ("agent", .str agent_name), ("response", .str response_text)]]))
  | _ => Except.error (PyExn.attributeError "append")

/-- The ADK pipeline runner (`runner.run_async` over the four stages),
external to the entry point: maps the session state to the post-run state
and the textual events the caller consumes. -/
structure GuiEnv where
  runPipeline : SessionState → SessionState × List AgentEvent

/-- `process_query_from_web_gui` from `agent.py`.  Result: the final
session state, the number of pipeline-runner invocations (each invocation
runs all stages; the skip path performs zero), and the log lines printed.
The guard mirrors the source:
`not statements or not isinstance(statements, list) or not
any(s.strip() for s in statements)` with Python's short-circuiting. -/
def process_query_from_web_gui (env : GuiEnv) (state : SessionState) :
    Except PyExn (SessionState × Nat × List String) := do
  let statements := dictGetD state "user_query" (.list [])
  let skip ←
    if !statements.truthy then pure true
    else
      match statements with
      | .list xs => do
        let b ← anyNonBlank xs
        pure (!b)
      | _ => pure true
  if skip then
    return (state, 0,
      ["[EntityAgent] ⚠️ No valid query found in session state. Skipping processing."])
  else
    match statements with
    | .list xs => do
      let stripped ← xs.mapM (fun v =>
        match v with
        | .str s => Except.ok (pyStrip s)
        | _ => Except.error (PyExn.attributeError "strip"))
      let filtered := stripped.filter (fun s => s ≠ "")
      let st1 ← set_user_query state filtered
      let (st2, events) := env.runPipeline st1
      let st3 ← events.foldlM (fun st ev => add_agent_response st ev.author ev.text) st2
      return (st3, 1, [])
    | _ => return (state, 1, [])

/-! Helper lemmas about the ordered-dict operations and the cache. -/

theorem dictGet_dictSet_self {α : Type} (d : List (String × α)) (k : String) (v : α) :
    dictGet (dictSet d k v) k = some v := by
  induction d with
  | nil => simp [dictSet, dictGet]
  | cons p rest ih =>
    by_cases h : p.1 = k
    · simp [dictSet, h, dictGet]
    · simpa [dictSet, h, dictGet] using ih

theorem dictGet_dictDel_self {α : Type} (d : List (String × α)) (k : String) :
    dictGet (dictDel d k) k = Option.none := by
  induction d with
  | nil => rfl
  | cons p rest ih =>
    by_cases h : p.1 = k
    · simpa [dictDel, h] using ih
    · simpa [dictDel, dictGet, h] using ih

theorem dictGet_dictDel_ne {α : Type} (d : List (String × α)) (k0 k : String)
    (h : k ≠ k0) : dictGet (dictDel d k0) k = dictGet d k := by
  induction d with
  | nil => rfl
  | cons p rest ih =>
    by_cases hp : p.1 = k0
    · have hpk : p.1 ≠ k := by rw [hp]; exact fun hk => h hk.symm
      simpa [dictDel, List.filter_cons, hp, dictGet, hpk, Ne.symm h] using ih
    · by_cases hk : p.1 = k
      · simp [dictDel, List.filter_cons, hp, dictGet, hk, h]
      · simpa [dictDel, List.filter_cons, hp, dictGet, hk] using ih

theorem dictSet_of_not_mem {α : Type} (d : List (String × α)) (k : String) (v : α)
    (h : k ∉ d.map Prod.fst) : dictSet d k v = d ++ [(k, v)] := by
  induction d with
  | nil => rfl
  | cons p rest ih =>
    have h1 : p.1 ≠ k := fun he => h (by simp [← he])
    have h2 : k ∉ rest.map Prod.fst := fun hm => h (by simp [hm])
    simp [dictSet, h1, ih h2]

theorem length_dictSet_of_mem {α : Type} (d : List (String × α)) (k : String) (v : α)
    (h : k ∈ d.map Prod.fst) : (dictSet d k v).length = d.length := by
  induction d with
  | nil => simp at h
  | cons p rest ih =>
    by_cases h1 : p.1 = k
    · simp [dictSet, h1]
    · have h2 : k ∈ rest.map Prod.fst := by
        rcases (by simpa using h : k = p.1 ∨ k ∈ rest.map Prod.fst) with h | h
        · exact absurd h.symm h1
        · exact h
      simp [dictSet, h1, ih h2]

theorem dictDel_cons_self {α : Type} (k0 : String) (v0 : α) (rest : List (String × α))
    (h : k0 ∉ rest.map Prod.fst) : dictDel ((k0, v0) :: rest) k0 = rest := by
  have : ∀ p ∈ rest, p.1 != k0 := by
    intro p hp
    have : p.1 ≠ k0 := fun he => h (by simpa [he] using List.mem_map_of_mem Prod.fst hp)
    simpa using this
  simp [dictDel, List.filter_cons, List.filter_eq_self.mpr this]

theorem set_stats (c : InMemoryCache) (k : String) (v : PyVal)
    (ttlArg : Option Nat) (now : Nat) :
    ((c.set k v ttlArg now).2).stats = c.stats.record_set := by
  simp only [InMemoryCache.set]
  split
  · split <;> rfl
  · rfl

theorem set_max_size (c : InMemoryCache) (k : String) (v : PyVal)
    (ttlArg : Option Nat) (now : Nat) :
    ((c.set k v ttlArg now).2).max_size = c.max_size := by
  simp only [InMemoryCache.set]
  split
  · split <;> rfl
  · rfl

theorem set_fst_true (c : InMemoryCache) (k : String) (v : PyVal)
    (ttlArg : Option Nat) (now : Nat) :
    (c.set k v ttlArg now).1 = true := by
  simp only [InMemoryCache.set]
  split
  · split <;> rfl
  · rfl

theorem set_cache_fresh_no_evict (c : InMemoryCache) (k : String) (v : PyVal)
    (ttlArg : Option Nat) (now : Nat) (hk : k ∉ c.cache.map Prod.fst)
    (hlen : c.cache.length + 1 ≤ c.max_size) :
    ((c.set k v ttlArg now).2).cache = c.cache ++ [(k, v)] := by
  simp only [InMemoryCache.set, dictSet_of_not_mem c.cache k v hk]
  have hcond : ¬ (c.cache ++ [(k, v)]).length > c.max_size := by
    simp only [List.length_append, List.length_singleton]
    omega
  rw [if_neg hcond]

theorem get_fst_of_live (c : InMemoryCache) (k : String) (now t : Nat) (v : PyVal)
    (he : dictGet c.expiry k = some t) (hnow : ¬ now > t)
    (hc : dictGet c.cache k = some v) :
    (c.get k now).1 = v := by
  simp only [InMemoryCache.get, he, hc, if_neg hnow, Option.getD_some]
  cases v <;> rfl

theorem get_none_misses (c : InMemoryCache) (k : String) (now : Nat)
    (h : dictGet c.cache k = some PyVal.none ∨ dictGet c.cache k = Option.none) :
    (c.get k now).1 = PyVal.none
    ∧ ((c.get k now).2).stats.misses = c.stats.misses + 1 := by
  unfold InMemoryCache.get
  cases he : dictGet c.expiry k with
  | none =>
    rcases h with h | h <;> simp [he, h, CacheStats.record_miss]
  | some t =>
    by_cases hnow : now > t
    · simp [he, hnow, CacheStats.record_miss]
    · rcases h with h | h <;> simp [he, hnow, h, CacheStats.record_miss]

theorem dictGet_set_cache_self (c : InMemoryCache) (k : String) (v : PyVal)
    (ttlArg : Option Nat) (now : Nat) :
    dictGet ((c.set k v ttlArg now).2).cache k = some v
    ∨ dictGet ((c.set k v ttlArg now).2).cache k = Option.none := by
  simp only [InMemoryCache.set]
  split
  · split
    · exact Or.inr rfl
    · rename_i k0 w tail heq
      by_cases hk : k = k0
      · subst hk
        exact Or.inr (dictGet_dictDel_self _ _)
      · refine Or.inl ?_
        rw [dictGet_dictDel_ne _ _ _ hk]
        exact dictGet_dictSet_self _ _ _
  · exact Or.inl (dictGet_dictSet_self _ _ _)

/-- C10: after a successful `set` of key `k` with value `None` (which
increments the `sets` counter), a `get` of `k` returns Python `None`
(absent at the `get` interface, exactly as for a missing key) and
increments the `misses` counter — a stored `None` never produces a hit. -/
theorem stored_none_reads_as_miss (c : InMemoryCache) (k : String)
    (ttlArg : Option Nat) (now now2 : Nat) :
    (((c.set k PyVal.none ttlArg now).2).get k now2).1 = PyVal.none
    ∧ ((((c.set k PyVal.none ttlArg now).2).get k now2).2).stats.misses
        = ((c.set k PyVal.none ttlArg now).2).stats.misses + 1
    ∧ ((c.set k PyVal.none ttlArg now).2).stats.sets = c.stats.sets + 1 := by
  have hv := dictGet_set_cache_self c k PyVal.none ttlArg now
  have hg := get_none_misses ((c.set k PyVal.none ttlArg now).2) k now2 hv
  refine ⟨hg.1, hg.2, ?_⟩
  rw [set_stats]
  rfl

/-- C6 (amended): for the in-process store, when `max_size` is at least one
and the store holds at most `max_size` entries (the invariant every store
reachable from construction satisfies), a `set` of key `k` immediately
followed by a `get` of `k` at any time not later than the entry's expiry
returns the value just stored. -/
theorem set_then_get_before_ttl (c : InMemoryCache) (k : String) (v : PyVal)
    (ttlArg : Option Nat) (now now2 : Nat)
    (hmax : 1 ≤ c.max_size) (hinv : c.cache.length ≤ c.max_size)
    (htime : now2 ≤ now + effectiveTtl c ttlArg) :
    (((c.set k v ttlArg now).2).get k now2).1 = v := by
  have hnow : ¬ now2 > now + effectiveTtl c ttlArg := by omega
  by_cases hover : (dictSet c.cache k v).length > c.max_size
  · -- eviction branch: the key just set must be fresh and the old head goes
    have hmem : k ∉ c.cache.map Prod.fst := by
      intro hmem
      have := length_dictSet_of_mem c.cache k v hmem
      omega
    have happ := dictSet_of_not_mem c.cache k v hmem
    have hlen1 : (dictSet c.cache k v).length = c.cache.length + 1 := by
      rw [happ]; simp
    obtain ⟨k0, w, rest, hpr⟩ : ∃ k0 w rest, c.cache = (k0, w) :: rest := by
      cases hc : c.cache with
      | nil =>
        exfalso
        rw [hc] at hover
        simp [dictSet] at hover
        omega
      | cons p rest =>
        obtain ⟨k0, w⟩ := p
        exact ⟨k0, w, rest, rfl⟩
    have hk0 : k ≠ k0 := by
      intro he
      exact hmem (by rw [hpr, he]; simp)
    have hset : (c.set k v ttlArg now).2 =
        { c with
          cache := dictDel ((k0, w) :: (rest ++ [(k, v)])) k0
          expiry := dictDel (dictSet c.expiry k (now + effectiveTtl c ttlArg)) k0
          stats := c.stats.record_set } := by
      simp only [InMemoryCache.set]
      rw [if_pos hover, happ, hpr]
      rfl
    rw [hset]
    refine get_fst_of_live _ k now2 (now + effectiveTtl c ttlArg) v ?_ hnow ?_
    · exact (dictGet_dictDel_ne _ _ _ hk0).trans (dictGet_dictSet_self _ _ _)
    · show dictGet (dictDel ((k0, w) :: (rest ++ [(k, v)])) k0) k = some v
      rw [dictGet_dictDel_ne _ _ _ hk0, ← List.cons_append, ← hpr, ← happ]
      exact dictGet_dictSet_self _ _ _
  · -- no eviction
    have hset : (c.set k v ttlArg now).2 =
        { c with
          cache := dictSet c.cache k v
          expiry := dictSet c.expiry k (now + effectiveTtl c ttlArg)
          stats := c.stats.record_set } := by
      simp only [InMemoryCache.set]
      rw [if_neg hover]
    rw [hset]
    exact get_fst_of_live _ k now2 (now + effectiveTtl c ttlArg) v
      (dictGet_dictSet_self _ _ _) hnow (dictGet_dictSet_self _ _ _)

/-- Witness for the amended C6 theorem at a concrete store. -/
theorem set_then_get_before_ttl_witness :
    ((((InMemoryCache.init 100 5).set "a" (PyVal.int 7) Option.none 0).2).get "a" 50).1
      = PyVal.int 7 :=
  set_then_get_before_ttl (InMemoryCache.init 100 5) "a" (PyVal.int 7) Option.none 0 50
    (by decide) (by decide) (by decide)

/-- C6 counterexample: a store bounded at `max_size = 0`.  The `set`
succeeds (returns `True`, increments `sets`), the `get` happens well before
the TTL expiry, and yet it returns `None`, not the stored value: the size
check `len(cache) > max_size` runs after insertion and evicts the entry
just stored. -/
theorem set_then_get_fails_at_zero_max_size :
    ((InMemoryCache.init 100 0).set "a" (PyVal.int 1) Option.none 0).1 = true
    ∧ (0 : Nat) ≤ 0 + effectiveTtl (InMemoryCache.init 100 0) Option.none
    ∧ ((((InMemoryCache.init 100 0).set "a" (PyVal.int 1) Option.none 0).2).get "a" 0).1
        = PyVal.none
    ∧ ((((InMemoryCache.init 100 0).set "a" (PyVal.int 1) Option.none 0).2).get "a" 0).1
        ≠ PyVal.int 1 :=
  ⟨rfl, by decide, rfl, fun h => PyVal.noConfusion h⟩

theorem insertAll_fresh_no_evict (now : Nat) (kvs : List (String × PyVal)) :
    ∀ c : InMemoryCache,
      (kvs.map Prod.fst).Nodup →
      (∀ k ∈ kvs.map Prod.fst, k ∉ c.cache.map Prod.fst) →
      c.cache.length + kvs.length ≤ c.max_size →
      (insertAll c kvs now).cache = c.cache ++ kvs
      ∧ (insertAll c kvs now).max_size = c.max_size := by
  induction kvs with
  | nil => exact fun c _ _ _ => ⟨by simp [insertAll], rfl⟩
  | cons kv rest ih =>
    intro c hnd hfresh hlen
    obtain ⟨k, v⟩ := kv
    have hnd2 : (k :: rest.map Prod.fst).Nodup := by simpa using hnd
    have hk : k ∉ c.cache.map Prod.fst := hfresh k (by simp)
    have hcache : ((c.set k v Option.none now).2).cache = c.cache ++ [(k, v)] := by
      refine set_cache_fresh_no_evict c k v Option.none now hk ?_
      simp only [List.length_cons] at hlen
      omega
    have hmax := set_max_size c k v Option.none now
    have hstep : insertAll c ((k, v) :: rest) now
        = insertAll ((c.set k v Option.none now).2) rest now := rfl
    have hfresh' : ∀ k' ∈ rest.map Prod.fst,
        k' ∉ ((c.set k v Option.none now).2).cache.map Prod.fst := by
      intro k' hk'
      rw [hcache]
      simp only [List.map_append, List.mem_append]
      rintro (h1 | h2)
      · exact hfresh k' (by simp [hk']) h1
      · simp at h2
        exact (List.nodup_cons.mp hnd2).1 (h2 ▸ hk')
    have hlen' : ((c.set k v Option.none now).2).cache.length + rest.length
        ≤ ((c.set k v Option.none now).2).max_size := by
      rw [hcache, hmax]
      simp only [List.length_append, List.length_singleton]
      simp only [List.length_cons] at hlen
      omega
    have hres := ih ((c.set k v Option.none now).2) (List.nodup_cons.mp hnd2).2 hfresh' hlen'
    rw [hstep]
    refine ⟨?_, by rw [hres.2, hmax]⟩
    rw [hres.1, hcache]
    simp

theorem set_cache_evict_head (c : InMemoryCache) (k : String) (v : PyVal)
    (ttlArg : Option Nat) (now : Nat) (k0 : String) (w : PyVal)
    (rest : List (String × PyVal))
    (hc : c.cache = (k0, w) :: rest)
    (hk : k ∉ c.cache.map Prod.fst)
    (hover : (dictSet c.cache k v).length > c.max_size) :
    ((c.set k v ttlArg now).2).cache = dictDel ((k0, w) :: (rest ++ [(k, v)])) k0 := by
  simp only [InMemoryCache.set]
  rw [if_pos hover, dictSet_of_not_mem _ _ _ hk, hc]
  rfl

/-- C5: an in-process store bounded at `max_size = K`, fed `K + 1` distinct
keys with `set` and no intervening expiries, holds the last `K` inserted
entries exactly: the single evicted entry is the first-inserted one (FIFO
insertion order, independent of any access recency). -/
theorem fifo_eviction_at_capacity (K ttl now : Nat) (kvs : List (String × PyVal))
    (hlen : kvs.length = K + 1) (hnd : (kvs.map Prod.fst).Nodup) :
    (insertAll (InMemoryCache.init ttl K) kvs now).cache = kvs.drop 1
    ∧ (insertAll (InMemoryCache.init ttl K) kvs now).cache.length = K := by
  rcases kvs.eq_nil_or_concat' with rfl | ⟨ys, z, rfl⟩
  · simp at hlen
  · obtain ⟨k, v⟩ := z
    have hys : ys.length = K := by
      simp only [List.length_append, List.length_singleton] at hlen
      omega
    have hkeys : ((ys.map Prod.fst) ++ [k]).Nodup := by simpa using hnd
    have hndys : (ys.map Prod.fst).Nodup := (List.nodup_append.mp hkeys).1
    have hknotin : k ∉ ys.map Prod.fst := by
      intro hkel
      exact (List.nodup_append.mp hkeys).2.2 hkel (by simp)
    have hfresh : ∀ k' ∈ ys.map Prod.fst,
        k' ∉ (InMemoryCache.init ttl K).cache.map Prod.fst := by
      intro k' _
      simp [InMemoryCache.init]
    have hphase := insertAll_fresh_no_evict now ys (InMemoryCache.init ttl K) hndys hfresh
      (by simp [InMemoryCache.init, hys])
    have hstep : insertAll (InMemoryCache.init ttl K) (ys ++ [(k, v)]) now
        = (((insertAll (InMemoryCache.init ttl K) ys now)).set k v Option.none now).2 := by
      simp [insertAll, List.foldl_append]
    have hc1cache : (insertAll (InMemoryCache.init ttl K) ys now).cache = ys := by
      rw [hphase.1]
      simp [InMemoryCache.init]
    have hc1max : (insertAll (InMemoryCache.init ttl K) ys now).max_size = K := hphase.2
    have hkfresh : k ∉ (insertAll (InMemoryCache.init ttl K) ys now).cache.map Prod.fst := by
      rw [hc1cache]
      exact hknotin
    have happ : dictSet (insertAll (InMemoryCache.init ttl K) ys now).cache k v
        = ys ++ [(k, v)] := by
      rw [dictSet_of_not_mem _ _ _ hkfresh, hc1cache]
    have hover : (dictSet (insertAll (InMemoryCache.init ttl K) ys now).cache k v).length
        > (insertAll (InMemoryCache.init ttl K) ys now).max_size := by
      rw [happ, hc1max]
      simp [hys]
    cases ys with
    | nil =>
      have hK : K = 0 := by simpa using hys.symm
      subst hK
      rw [hstep]
      constructor
      · simp [insertAll, InMemoryCache.set, InMemoryCache.init, dictSet, dictDel]
      · simp [insertAll, InMemoryCache.set, InMemoryCache.init, dictSet, dictDel]
    | cons y0 ys' =>
      obtain ⟨k0, w⟩ := y0
      have hk0notinys : k0 ∉ ys'.map Prod.fst := by
        have h := hndys
        simp only [List.map_cons] at h
        exact (List.nodup_cons.mp h).1
      have hk0ne : k0 ≠ k := by
        intro he
        exact hknotin (by simp [he])
      have hk0notin : k0 ∉ (ys' ++ [(k, v)]).map Prod.fst := by
        simp only [List.map_append, List.mem_append]
        rintro (h | h)
        · exact hk0notinys h
        · simp at h
          exact hk0ne h
      have hevict := set_cache_evict_head
        (insertAll (InMemoryCache.init ttl K) ((k0, w) :: ys') now)
        k v Option.none now k0 w ys' hc1cache hkfresh hover
      rw [hstep, hevict, dictDel_cons_self k0 w _ hk0notin]
      constructor
      · simp
      · simp only [List.length_append, List.length_singleton]
        simp only [List.length_cons] at hys
        omega

/-- Witness for the FIFO eviction theorem: a store bounded at 2, fed three
distinct keys, keeps exactly the last two. -/
theorem fifo_eviction_at_capacity_witness :
    (insertAll (InMemoryCache.init 100 2)
        [("a", PyVal.int 1), ("b", PyVal.int 2), ("c", PyVal.int 3)] 0).cache
      = [("b", PyVal.int 2), ("c", PyVal.int 3)]
    ∧ (insertAll (InMemoryCache.init 100 2)
        [("a", PyVal.int 1), ("b", PyVal.int 2), ("c", PyVal.int 3)] 0).cache.length = 2 :=
  fifo_eviction_at_capacity 2 100 0
    [("a", PyVal.int 1), ("b", PyVal.int 2), ("c", PyVal.int 3)] rfl (by decide)

/-- C3: `clear_all` over two registered stores whose `clear()` outcomes are
`[failure, success]`.  The loop body `success = success and cache.clear()`
short-circuits, so only the first store's `clear()` is invoked (the count
is `1`, not `2`) and the second store is never cleared; the returned flag
is `False`. -/
theorem clear_all_skips_remaining_after_failure :
    clear_all [false, true] = (false, 1) := rfl

/-- Concrete nodes for the knowledge-graph claim: entities `A` and `B` as
the stage enriches them before relationship generation. -/
def kgNodesAB : List PyVal :=
  [.dict [("name", .str "A"), ("type", .str "T"), ("summary", .str "about A.")],
   .dict [("name", .str "B"), ("type", .str "T"), ("summary", .str "about B.")]]

/-- Concrete model-proposed relationships: `A -> B` and the dangling
`A -> C` (node `C` does not exist). -/
def kgRelsWithDangling : PyVal :=
  .list [.dict [("from_node", .str "A"), ("to_node", .str "B"), ("type", .str "x")],
         .dict [("from_node", .str "A"), ("to_node", .str "C"), ("type", .str "y")]]

/-- C1: with nodes `A`, `B` and proposed relationships `A->B`, `A->C`, the
knowledge-graph stage stores both relationships verbatim into the session
state — the dangling `A->C` is not filtered out (two relationships remain,
not one) and the stored graph violates the `from_node`/`to_node`
referential invariant. -/
theorem kg_stage_stores_dangling_relationship :
    kgBuildGraph kgNodesAB kgRelsWithDangling
      = PyVal.dict [("nodes", PyVal.list kgNodesAB), ("relationships", kgRelsWithDangling)]
    ∧ graphRelClosed (kgBuildGraph kgNodesAB kgRelsWithDangling) = false := ⟨rfl, rfl⟩

/-- Session state for the fetch-stage claim: the upstream `entities` key
holds one entity whose `name` is the integer `1` rather than a string. -/
def fetchFailState : SessionState :=
  [("entities", .list [.dict [("name", .int 1)]])]

/-- A benign environment for the fetch stage: caching disabled and every
external call succeeding — the failure below is not caused by any
collaborator. -/
def fetchBenignEnv : FetchEnv :=
  ⟨false, fun _ => "", fun _ => .none, fun _ => .ok (.list []), fun _ => .ok ""⟩

/-- C2: on a malformed upstream state (a non-string entity name) the fetch
stage raises `TypeError` from `", ".join(entity_names)` — evaluated before
its `try` block — and propagates the exception to the pipeline runner: it
neither writes the empty-context fallback nor emits a diagnostic event. -/
theorem fetch_stage_propagates_exception :
    fetchRun fetchBenignEnv fetchFailState
      = Except.error (PyExn.typeError "sequence item: expected str instance") := rfl

/-- Statistics after recording `H` hits and `M` misses on a fresh
`CacheStats`. -/
def statsAfter (H M : Nat) : CacheStats :=
  recordN CacheStats.record_miss M (recordN CacheStats.record_hit H CacheStats.init)

theorem recordN_hit_fields (H : Nat) (s : CacheStats) :
    (recordN CacheStats.record_hit H s).hits = s.hits + H
    ∧ (recordN CacheStats.record_hit H s).misses = s.misses := by
  induction H with
  | zero => exact ⟨rfl, rfl⟩
  | succ n ih =>
    simp only [recordN, CacheStats.record_hit]
    exact ⟨by rw [ih.1]; omega, ih.2⟩

theorem recordN_miss_fields (M : Nat) (s : CacheStats) :
    (recordN CacheStats.record_miss M s).misses = s.misses + M
    ∧ (recordN CacheStats.record_miss M s).hits = s.hits := by
  induction M with
  | zero => exact ⟨rfl, rfl⟩
  | succ n ih =>
    simp only [recordN, CacheStats.record_miss]
    exact ⟨by rw [ih.1]; omega, ih.2⟩

theorem statsAfter_hits (H M : Nat) : (statsAfter H M).hits = H := by
  unfold statsAfter
  rw [(recordN_miss_fields M _).2, (recordN_hit_fields H _).1]
  simp [CacheStats.init]

theorem statsAfter_misses (H M : Nat) : (statsAfter H M).misses = M := by
  unfold statsAfter
  rw [(recordN_miss_fields M _).1, (recordN_hit_fields H _).2]
  simp [CacheStats.init]

/-- C7: after `H` recorded hits and `M` recorded misses, `hit_rate` is
`H / (H + M)` when there was at least one request, and `0.0` when there
was none. -/
theorem hit_rate_after_requests (H M : Nat) :
    (0 < H + M → (statsAfter H M).hit_rate = (H : ℚ) / ((H : ℚ) + (M : ℚ)))
    ∧ (H = 0 → M = 0 → (statsAfter H M).hit_rate = 0) := by
  constructor
  · intro hpos
    unfold CacheStats.hit_rate
    rw [statsAfter_hits, statsAfter_misses]
    rw [if_pos hpos]
    push_cast
    ring
  · intro h1 h2
    subst h1
    subst h2
    rfl

/-- Witness for the hit-rate theorem at `H = 3`, `M = 1` (rate `3/4`) — the
positivity hypothesis discharged concretely. -/
theorem hit_rate_after_requests_witness :
    (statsAfter 3 1).hit_rate = (3 : ℚ) / ((3 : ℚ) + (1 : ℚ)) :=
  (hit_rate_after_requests 3 1).1 (by norm_num)

/-- C9: `parse_json_safely` always returns normally — either the default
(every extraction or parse failure, including text with no JSON at all, is
caught) or a value parsed from the extracted portion of the text. -/
theorem parse_json_safely_total (loads : String → Option PyVal) (text : String)
    (default : PyVal) :
    parse_json_safely loads text default = default
    ∨ ∃ s v, extract_json_from_response text = Except.ok s ∧ loads s = some v
        ∧ parse_json_safely loads text default = v := by
  cases he : extract_json_from_response text with
  | error e =>
    refine Or.inl ?_
    unfold parse_json_safely
    rw [he]
  | ok s =>
    have hs : parse_json_safely loads text default
        = (match loads s with | some v => v | Option.none => default) := by
      unfold parse_json_safely
      rw [he]
    cases hl : loads s with
    | none =>
      refine Or.inl ?_
      rw [hs, hl]
    | some v =>
      refine Or.inr ⟨s, v, rfl, hl, ?_⟩
      rw [hs, hl]

theorem sorted_kwLe_nodup_keys_kwLt (l : List (String × PyVal))
    (hs : l.Sorted kwLe) (hnd : (l.map Prod.fst).Nodup) : l.Sorted kwLt := by
  have hne : l.Pairwise (fun a b : String × PyVal => a.1 ≠ b.1) :=
    List.pairwise_map.mp hnd
  exact (hs.and hne).imp (fun h => lt_of_le_of_ne h.1 h.2)

theorem sortKwargs_eq_of_perm (kw1 kw2 : List (String × PyVal))
    (hnd : (kw1.map Prod.fst).Nodup) (hp : kw1.Perm kw2) :
    sortKwargs kw1 = sortKwargs kw2 := by
  have hperm : (sortKwargs kw1).Perm (sortKwargs kw2) :=
    (List.perm_insertionSort kwLe kw1).trans
      (hp.trans (List.perm_insertionSort kwLe kw2).symm)
  have hnd1 : ((sortKwargs kw1).map Prod.fst).Nodup :=
    (((List.perm_insertionSort kwLe kw1).map Prod.fst).nodup_iff).mpr hnd
  have hnd2' : (kw2.map Prod.fst).Nodup :=
    ((hp.map Prod.fst).nodup_iff).mp hnd
  have hnd2 : ((sortKwargs kw2).map Prod.fst).Nodup :=
    (((List.perm_insertionSort kwLe kw2).map Prod.fst).nodup_iff).mpr hnd2'
  exact List.eq_of_perm_of_sorted hperm
    (sorted_kwLe_nodup_keys_kwLt _ (List.sorted_insertionSort kwLe kw1) hnd1)
    (sorted_kwLe_nodup_keys_kwLt _ (List.sorted_insertionSort kwLe kw2) hnd2)

/-- C4: the cache-key derivation is a pure function (determinism is
definitional: equal prefix, positional arguments and keyword-argument
lists give the same string), and the key is invariant under any
permutation of the keyword arguments — their names are distinct, as the
keys of a Python `**kwargs` dict always are. -/
theorem generate_cache_key_kwargs_perm (objHash : PyVal → String) (pre : String)
    (args : List PyVal) (kw1 kw2 : List (String × PyVal))
    (hnd : (kw1.map Prod.fst).Nodup) (hp : kw1.Perm kw2) :
    generate_cache_key objHash pre args kw1 = generate_cache_key objHash pre args kw2 := by
  unfold generate_cache_key
  rw [sortKwargs_eq_of_perm kw1 kw2 hnd hp]

/-- Witness for the keyword-permutation theorem: swapping two concrete
keyword arguments leaves the derived key unchanged. -/
theorem generate_cache_key_kwargs_perm_witness :
    generate_cache_key (fun _ => "deadbeef") "p" [PyVal.str "x"]
        [("b", PyVal.int 1), ("a", PyVal.str "z")]
      = generate_cache_key (fun _ => "deadbeef") "p" [PyVal.str "x"]
        [("a", PyVal.str "z"), ("b", PyVal.int 1)] :=
  generate_cache_key_kwargs_perm (fun _ => "deadbeef") "p" [PyVal.str "x"]
    [("b", PyVal.int 1), ("a", PyVal.str "z")]
    [("a", PyVal.str "z"), ("b", PyVal.int 1)]
    (by decide)
    (List.Perm.swap ("a", PyVal.str "z") ("b", PyVal.int 1) [])

theorem anyNonBlank_all_blank (xs : List PyVal)
    (h : ∀ x ∈ xs, ∃ s, x = PyVal.str s ∧ pyStrip s = "") :
    anyNonBlank xs = Except.ok false := by
  induction xs with
  | nil => rfl
  | cons x rest ih =>
    obtain ⟨s, rfl, hs⟩ := h x (by simp)
    have hcond : ¬ pyStrip s ≠ "" := by simp [hs]
    simp only [anyNonBlank, if_neg hcond]
    exact ih (fun y hy => h y (by simp [hy]))

/-- C8: when the `user_query` value in session state is not a list, is the
empty list, or is a list of blank (whitespace-only) strings, the pipeline
entry point returns immediately: the runner is invoked zero times and the
session state is returned unchanged, with only the skip log line emitted. -/
theorem blank_query_skips_pipeline (env : GuiEnv) (state : SessionState)
    (h : (dictGetD state "user_query" (PyVal.list [])).isList = false
      ∨ ∃ xs, dictGetD state "user_query" (PyVal.list []) = PyVal.list xs
          ∧ ∀ x ∈ xs, ∃ s, x = PyVal.str s ∧ pyStrip s = "") :
    process_query_from_web_gui env state
      = Except.ok (state, 0,
          ["[EntityAgent] ⚠️ No valid query found in session state. Skipping processing."]) := by
  rcases h with h | ⟨xs, hq, hblank⟩
  · cases hq : dictGetD state "user_query" (PyVal.list []) with
    | list ys =>
      rw [hq] at h
      simp [PyVal.isList] at h
    | none =>
      simp [process_query_from_web_gui, hq, PyVal.truthy]
      rfl
    | bool b =>
      simp [process_query_from_web_gui, hq, PyVal.truthy]
      rfl
    | int n =>
      simp [process_query_from_web_gui, hq, PyVal.truthy]
      rfl
    | str s =>
      simp [process_query_from_web_gui, hq, PyVal.truthy]
      rfl
    | dict d =>
      simp [process_query_from_web_gui, hq, PyVal.truthy]
      rfl
  · have hany := anyNonBlank_all_blank xs hblank
    unfold process_query_from_web_gui
    rw [hq]
    simp [PyVal.truthy, hany]
    cases xs <;> rfl

/-- A concrete runner environment for the witness (its behaviour is
irrelevant: the skip path never invokes it). -/
def witnessGuiEnv : GuiEnv := ⟨fun st => (st, [])⟩

/-- Witness for the skip theorem on a concrete all-blank query list. -/
theorem blank_query_skips_pipeline_witness :
    process_query_from_web_gui witnessGuiEnv [("user_query", PyVal.list [PyVal.str " "])]
      = Except.ok ([("user_query", PyVal.list [PyVal.str " "])], 0,
          ["[EntityAgent] ⚠️ No valid query found in session state. Skipping processing."]) :=
  blank_query_skips_pipeline witnessGuiEnv [("user_query", PyVal.list [PyVal.str " "])]
    (Or.inr ⟨[PyVal.str " "], rfl, by
      intro x hx
      rw [List.mem_singleton.mp hx]
      exact ⟨" ", rfl, rfl⟩⟩)
